import Mathlib

/-!
Verification of the core logic of a multi-board discussion forum
(pagination calculator, CSRF validator, permission evaluator, content
sanitizer, session identity resolver, comment service) against its
natural-language specification.  The Python services are shallowly
embedded as executable Lean functions; machine integers are modelled as
`Nat` (Python integers are unbounded, and all quantities here are
non-negative), optional values as `Option`, and raised HTTP errors as
explicit error results.
-/

namespace WebTest

/-! ## Pagination calculator (`app/services/utils.py`, `calculate_pagination`)

Python source:
```
total_pages = (total + per_page - 1) // per_page if total > 0 else 0
has_prev = page > 1
has_next = page < total_pages
start_page = max(1, page - 2)
end_page = min(total_pages, start_page + 4)
if end_page - start_page < 4:
    start_page = max(1, end_page - 4)
page_range = list(range(start_page, end_page + 1)) if total_pages > 0 else []
```
Python `max(1, page - 2)` with `page ≥ 1` agrees with the `Nat`-truncated
version (a negative argument and a truncated-to-zero argument are both
clamped to 1 by `max`), `end_page - start_page < 4` agrees because a
negative difference and a truncated-to-zero difference are both `< 4`,
and `max(1, end_page - 4)` clamps the same way, so `Nat` subtraction is a
faithful embedding of the Python arithmetic on these inputs. -/

/-- Result record of `calculate_pagination` (the Python dict). -/
structure Pagination where
  total : Nat
  page : Nat
  per_page : Nat
  total_pages : Nat
  has_prev : Bool
  has_next : Bool
  page_range : List Nat
deriving Repr, DecidableEq

/-- `total_pages = (total + per_page - 1) // per_page if total > 0 else 0`. -/
def total_pages_of (total per_page : Nat) : Nat :=
  if 0 < total then (total + per_page - 1) / per_page else 0

/-- The unadjusted window end: `end_page = min(total_pages, max(1, page - 2) + 4)`. -/
def window_end (page tp : Nat) : Nat :=
  min tp (max 1 (page - 2) + 4)

/-- The window start after the `if end_page - start_page < 4` adjustment. -/
def window_start (page tp : Nat) : Nat :=
  let s0 := max 1 (page - 2)
  let e := window_end page tp
  if e - s0 < 4 then max 1 (e - 4) else s0

/-- Shallow embedding of `calculate_pagination(total, page, per_page)`.
`list(range(a, b + 1))` is `List.range' a (b + 1 - a)`. -/
def calculate_pagination (total page per_page : Nat) : Pagination :=
  let tp := total_pages_of total per_page
  { total := total
    page := page
    per_page := per_page
    total_pages := tp
    has_prev := decide (page > 1)
    has_next := decide (page < tp)
    page_range :=
      if 0 < tp then
        List.range' (window_start page tp) (window_end page tp + 1 - window_start page tp)
      else [] }

/-! ## CSRF validator (`app/services/utils.py`, `verify_csrf_token`)

Python source:
```
if not cookie_token or not form_token:
    return False
return secrets.compare_digest(cookie_token, form_token)
```
Python truthiness: `not x` is true for `None` and for the empty string.
`secrets.compare_digest` decides byte-for-byte equality (its constant-time
execution is a timing property outside the embedding). -/

def verify_csrf_token (cookie_token form_token : Option String) : Bool :=
  match cookie_token, form_token with
  | some c, some f => if c = "" ∨ f = "" then false else decide (c = f)
  | _, _ => false

/-! ## Permission evaluator (`app/services/board.py`)

Boards are loosely-typed dicts; only the fields the evaluator reads are
modelled.  `board.get("can_read", "all")` is `can_read.getD "all"`, and
`user.get("is_admin", False)` is `is_admin.getD false`. -/

/-- The fields of a board dict read by the permission evaluator.  A missing
dict key is `none`. -/
structure Board where
  can_read : Option String
  can_write : Option String
deriving Repr, DecidableEq

/-- The fields of a user dict read by the permission evaluator. -/
structure User where
  is_admin : Option Bool
deriving Repr, DecidableEq

/-- Shallow embedding of `BoardService.check_read_permission(board, user)`. -/
def check_read_permission (board : Board) (user : Option User) : Bool :=
  let can_read := board.can_read.getD "all"
  if can_read = "all" then true
  else if can_read = "member" then user.isSome
  else if can_read = "admin" then
    match user with
    | some u => u.is_admin.getD false
    | none => false
  else false

/-- Shallow embedding of `BoardService.check_write_permission(board, user)`. -/
def check_write_permission (board : Board) (user : Option User) : Bool :=
  match user with
  | none => false
  | some u =>
    let can_write := board.can_write.getD "member"
    if can_write = "all" then true
    else if can_write = "member" then true
    else if can_write = "admin" then u.is_admin.getD false
    else false

/-! ## Content sanitizer (`app/services/utils.py`, `sanitize_html` / `sanitize_text`)

The Python wrappers delegate to `bleach.clean(content, tags, strip=True)`,
an external library whose code is not part of this repository; its
behaviour is modelled from the specification (§4.5): markup is parsed
into tags and text, tags whose (lowercased) name is on the allow-list are
kept, all other tags and comments are stripped while their text content
is preserved, and stray angle brackets in text are escaped to entities.
Attribute and style filtering is elided from the model: the claims
settled here (idempotence, markup-free plain-text output) do not depend
on it. -/

/-- The tag allow-list for Quill.js content (`ALLOWED_TAGS`). -/
def ALLOWED_TAGS : List String :=
  ["p", "br", "strong", "em", "u", "s", "a", "img",
   "ul", "ol", "li", "blockquote", "pre", "code",
   "h1", "h2", "h3", "h4", "h5", "h6", "span", "div"]

/-- A lexical token of the sanitizer: a single text character, or a parsed
opening/closing tag with its lowercased name. -/
inductive Tok where
  | text (c : Char)
  | tag (closing : Bool) (name : String)
deriving Repr, DecidableEq

/-- Drop characters up to and including the first `>` (the end of a tag;
at end of input the unterminated tag is simply dropped). -/
def findTagEnd : List Char → List Char
  | [] => []
  | c :: rest => if c = '>' then rest else findTagEnd rest

theorem findTagEnd_length_le (l : List Char) : (findTagEnd l).length ≤ l.length := by
  induction l with
  | nil => simp [findTagEnd]
  | cons c rest ih =>
    simp only [findTagEnd]
    split
    · simp
    · exact le_trans ih (by simp)

/-- The tag name: the leading alphanumeric run, lowercased. -/
def tagName (l : List Char) : String :=
  String.mk ((l.takeWhile fun c => c.isAlphanum).map Char.toLower)

/-- Whether a character list starts with an ASCII letter (a tag-name start). -/
def headIsAlpha : List Char → Bool
  | [] => false
  | c :: _ => c.isAlpha

/-- Tokenize markup: `<` followed by a letter opens a tag, `</` followed by
a letter closes one, `<!`/`<?` start a comment or bogus markup (dropped);
any other character — including a stray `<` or `>` — is text. -/
def tokenize : List Char → List Tok
  | [] => []
  | c :: rest =>
    if c = '<' then
      match rest with
      | [] => [Tok.text '<']
      | c1 :: cs =>
        if c1.isAlpha then
          Tok.tag false (tagName (c1 :: cs)) :: tokenize (findTagEnd (c1 :: cs))
        else if c1 == '/' && headIsAlpha cs then
          Tok.tag true (tagName cs) :: tokenize (findTagEnd cs)
        else if c1 = '!' ∨ c1 = '?' then
          tokenize (findTagEnd (c1 :: cs))
        else
          Tok.text '<' :: tokenize (c1 :: cs)
    else Tok.text c :: tokenize rest
termination_by l => l.length
decreasing_by
  all_goals simp_wf
  all_goals
    first
      | (have h := findTagEnd_length_le (c :: rest); simp only [List.length_cons] at h; omega)
      | (have h := findTagEnd_length_le rest; omega)

/-- Serialize a text character, escaping stray angle brackets to entities. -/
def escapeChar (c : Char) : List Char :=
  if c = '<' then ['&', 'l', 't', ';']
  else if c = '>' then ['&', 'g', 't', ';']
  else [c]

/-- Serialize one token back to characters (tags in canonical form). -/
def serializeTok : Tok → List Char
  | Tok.text c => escapeChar c
  | Tok.tag closing name => '<' :: ((if closing then ['/'] else []) ++ name.toList ++ ['>'])

/-- Serialize a token list. -/
def serializeToks : List Tok → List Char
  | [] => []
  | t :: ts => serializeTok t ++ serializeToks ts

/-- `strip=True` filtering of one token: text is kept, a tag is kept only
when its name is on the allow-list, otherwise dropped entirely. -/
def keepTok (allowed : List String) : Tok → List Tok
  | Tok.text c => [Tok.text c]
  | Tok.tag b n => if n ∈ allowed then [Tok.tag b n] else []

/-- `strip=True` filtering of a token list. -/
def filterToks (allowed : List String) : List Tok → List Tok
  | [] => []
  | t :: ts => keepTok allowed t ++ filterToks allowed ts

/-- Modelled from the spec: `bleach.clean(s, tags=allowed, strip=True)`
(the external `bleach` library is not part of this repository). -/
def bleach_clean (allowed : List String) (s : String) : String :=
  String.mk (serializeToks (filterToks allowed (tokenize s.toList)))

/-- Shallow embedding of `sanitize_html(content)`: pass-through on falsy
input (`None` or the empty string), else clean with the Quill allow-list. -/
def sanitize_html : Option String → Option String
  | none => none
  | some s => if s = "" then some s else some (bleach_clean ALLOWED_TAGS s)

/-- Shallow embedding of `sanitize_text(text)`: pass-through on falsy
input, else clean with an empty tag allow-list (all markup stripped). -/
def sanitize_text : Option String → Option String
  | none => none
  | some s => if s = "" then some s else some (bleach_clean [] s)

/-! ## Session identity resolver (`app/services/auth.py`, `AuthService.get_current_user`)

The Python body reads the `access_token` cookie (absent → `None`), then
inside a `try` block decodes the JWT and looks the subject up in the
`users` table; `except JWTError` returns `None` and the blanket
`except Exception` also logs and returns `None`.  The JWT decoder and the
store are external collaborators, modelled as oracles giving every
possible outcome of the two calls; a raised exception that the function
lets escape would be a `Fatal` result. -/

/-- Profile row returned by the `users` table lookup. -/
structure UserRec where
  id : String
  is_admin : Bool
deriving Repr, DecidableEq

/-- Outcome of `jwt.decode(token, ...)`: a payload whose `sub` claim may be
absent, a `JWTError` (malformed, expired, or bad-signature token), or any
other raised exception. -/
inductive DecodeOutcome where
  | ok (sub : Option String)
  | jwtError
  | exn
deriving Repr, DecidableEq

/-- Outcome of the `users` table lookup: a row, no row, or a raised store
exception. -/
inductive LookupOutcome where
  | found (u : UserRec)
  | noRow
  | exn
deriving Repr, DecidableEq

/-- The external collaborators of `get_current_user`. -/
structure AuthCtx where
  decode : String → DecodeOutcome
  lookup : String → LookupOutcome

/-- An error propagated to the caller (an exception the function lets
escape). -/
inductive Fatal where
  | storeFailure
deriving Repr, DecidableEq

/-- Shallow embedding of `AuthService.get_current_user`.  Python `if not
user_id` treats an empty `sub` claim like a missing one. -/
def get_current_user (ctx : AuthCtx) (token : Option String) :
    Except Fatal (Option UserRec) :=
  match token with
  | none => Except.ok none
  | some t =>
    match ctx.decode t with
    | DecodeOutcome.jwtError => Except.ok none
    | DecodeOutcome.exn => Except.ok none
    | DecodeOutcome.ok none => Except.ok none
    | DecodeOutcome.ok (some uid) =>
      if uid = "" then Except.ok none
      else
        match ctx.lookup uid with
        | LookupOutcome.found u => Except.ok (some u)
        | LookupOutcome.noRow => Except.ok none
        | LookupOutcome.exn => Except.ok none

/-! ## Comment service (`app/services/comment.py`, `CommentService.create_comment`)

The store rows read and written by `create_comment` are modelled
explicitly; a `single().execute()` lookup filtered on id and active flag
is `List.find?` over the rows with that predicate.  A zero-row lookup is
a not-found error (the raising variant of `single()` differs only in the
status code, which no claim here depends on).  `if parent_id:` treats an
empty parent id like an absent one (Python truthiness). -/

/-- Post row fields read by `create_comment`. -/
structure PostRec where
  id : String
  is_active : Bool
deriving Repr, DecidableEq

/-- Comment row. -/
structure CommentRec where
  id : String
  post_id : String
  user_id : String
  parent_id : Option String
  content : String
  is_active : Bool
deriving Repr, DecidableEq

/-- The store tables touched by `create_comment`; `next_id` is the
store-assigned primary key of the next inserted row. -/
structure Store where
  posts : List PostRec
  comments : List CommentRec
  next_id : String
deriving Repr, DecidableEq

/-- HTTP error statuses raised by `create_comment`: 404 (post or parent
comment not found) and 400 (reply to a reply). -/
inductive ErrKind where
  | notFound
  | badRequest
deriving Repr, DecidableEq

/-- Shallow embedding of `CommentService.create_comment(post_id, user,
content, parent_id)`.  Returns the raised error or the created comment,
together with the resulting store (unchanged unless a row is inserted). -/
def create_comment (st : Store) (post_id : String) (user : UserRec)
    (content : String) (parent_id : Option String) :
    Except ErrKind CommentRec × Store :=
  match st.posts.find? (fun p => p.id == post_id && p.is_active) with
  | none => (Except.error ErrKind.notFound, st)
  | some _ =>
    let inserted : Except ErrKind CommentRec × Store :=
      let c : CommentRec :=
        { id := st.next_id
          post_id := post_id
          user_id := user.id
          parent_id := parent_id
          content := (sanitize_text (some content)).getD content
          is_active := true }
      (Except.ok c, { st with comments := st.comments ++ [c] })
    match parent_id with
    | none => inserted
    | some pid =>
      if pid = "" then inserted
      else
        match st.comments.find? (fun c => c.id == pid && c.is_active) with
        | none => (Except.error ErrKind.notFound, st)
        | some parent =>
          if parent.parent_id.isSome then (Except.error ErrKind.badRequest, st)
          else inserted

/-! ## Sanitizer normal-form lemmas

Plan of the idempotence proof: re-tokenizing the serialization of a
filtered token stream recovers the stream up to `expandToks` (an escaped
text character re-tokenizes as the entity's individual characters, which
are themselves plain text); `expandToks` changes neither the filtered
status nor the serialization of a stream, so a second clean is a no-op. -/

/-- A well-formed tag name: nonempty, led by a letter, all alphanumeric
and already lowercase.  Every name on the allow-lists used by the code is
canonical (checked concretely below). -/
def canonicalName (n : String) : Bool :=
  !n.toList.isEmpty && headIsAlpha n.toList &&
    (n.toList.all fun c => c.isAlphanum && (c.toLower == c))

/-- Tokens whose tag names are canonical (text is always fine). -/
def tokCanonical : Tok → Prop
  | Tok.text _ => True
  | Tok.tag _ n => canonicalName n = true

/-- Tokens whose tags are on the allow-list (text is always fine). -/
def tokAllowed (allowed : List String) : Tok → Prop
  | Tok.text _ => True
  | Tok.tag _ n => n ∈ allowed

/-- How one serialized token re-tokenizes: a text character becomes the
individual characters of its escape sequence; a tag is recovered as is. -/
def expandTok : Tok → List Tok
  | Tok.text c => (escapeChar c).map Tok.text
  | Tok.tag b n => [Tok.tag b n]

/-- `expandTok` over a stream. -/
def expandToks : List Tok → List Tok
  | [] => []
  | t :: ts => expandTok t ++ expandToks ts

theorem escapeChar_ne_angle (c : Char) :
    ∀ x ∈ escapeChar c, x ≠ '<' ∧ x ≠ '>' := by
  unfold escapeChar
  split
  · intro x hx
    simp only [List.mem_cons, List.not_mem_nil, or_false] at hx
    rcases hx with rfl | rfl | rfl | rfl <;> exact ⟨by decide, by decide⟩
  split
  · intro x hx
    simp only [List.mem_cons, List.not_mem_nil, or_false] at hx
    rcases hx with rfl | rfl | rfl | rfl <;> exact ⟨by decide, by decide⟩
  next h1 h2 =>
    intro x hx
    simp only [List.mem_singleton] at hx
    subst hx
    exact ⟨h1, h2⟩

theorem escapeChar_eq_self {c : Char} (h1 : c ≠ '<') (h2 : c ≠ '>') :
    escapeChar c = [c] := by
  unfold escapeChar
  rw [if_neg h1, if_neg h2]

theorem serializeToks_append (a b : List Tok) :
    serializeToks (a ++ b) = serializeToks a ++ serializeToks b := by
  induction a with
  | nil => rfl
  | cons t ts ih => simp [serializeToks, ih]

theorem filterToks_append (A : List String) (a b : List Tok) :
    filterToks A (a ++ b) = filterToks A a ++ filterToks A b := by
  induction a with
  | nil => rfl
  | cons t ts ih => simp [filterToks, ih]

theorem expandToks_append (a b : List Tok) :
    expandToks (a ++ b) = expandToks a ++ expandToks b := by
  induction a with
  | nil => rfl
  | cons t ts ih => simp [expandToks, ih]

theorem takeWhile_append_stop {p : Char → Bool} {l : List Char} {x : Char}
    (r : List Char) (hl : ∀ c ∈ l, p c = true) (hx : p x = false) :
    (l ++ x :: r).takeWhile p = l := by
  induction l with
  | nil => simp [List.takeWhile_cons, hx]
  | cons c cs ih =>
    have hc := hl c (by simp)
    simp only [List.cons_append, List.takeWhile_cons, hc, cond_true]
    rw [ih fun d hd => hl d (by simp [hd])]
    simp

theorem map_eq_self_of {f : Char → Char} {l : List Char}
    (h : ∀ c ∈ l, f c = c) : l.map f = l := by
  induction l with
  | nil => rfl
  | cons c cs ih =>
    rw [List.map_cons, h c (by simp), ih fun d hd => h d (by simp [hd])]

theorem string_mk_toList (s : String) : String.mk s.toList = s := by
  cases s
  rfl

theorem findTagEnd_append {l : List Char} (r : List Char)
    (hl : ∀ c ∈ l, c ≠ '>') : findTagEnd (l ++ '>' :: r) = r := by
  induction l with
  | nil => simp [findTagEnd]
  | cons c cs ih =>
    have hc := hl c (by simp)
    rw [List.cons_append]
    simp only [findTagEnd]
    rw [if_neg hc]
    exact ih fun d hd => hl d (by simp [hd])

/-- Unpacked form of `canonicalName`. -/
theorem canonicalName_spec {n : String} (h : canonicalName n = true) :
    n.toList ≠ [] ∧ headIsAlpha n.toList = true ∧
      ∀ c ∈ n.toList, c.isAlphanum = true ∧ c.toLower = c := by
  unfold canonicalName at h
  simp only [Bool.and_eq_true, List.all_eq_true, beq_iff_eq,
    Bool.not_eq_true', List.isEmpty_eq_false_iff_exists_mem] at h
  obtain ⟨⟨h1, h2⟩, h3⟩ := h
  refine ⟨?_, h2, fun c hc => ⟨(h3 c hc).1, (h3 c hc).2⟩⟩
  obtain ⟨x, hx⟩ := h1
  intro hnil
  rw [hnil] at hx
  cases hx

theorem isAlphanum_ne_gt {c : Char} (h : c.isAlphanum = true) : c ≠ '>' := by
  intro hc
  subst hc
  exact absurd h (by decide)

theorem tagName_canonical {n : String} (h : canonicalName n = true)
    (r : List Char) : tagName (n.toList ++ '>' :: r) = n := by
  obtain ⟨-, -, hall⟩ := canonicalName_spec h
  unfold tagName
  rw [takeWhile_append_stop r (fun c hc => (hall c hc).1) (by decide)]
  rw [map_eq_self_of fun c hc => (hall c hc).2]
  exact string_mk_toList n

theorem tokenize_text_cons {c : Char} (h : c ≠ '<') (l : List Char) :
    tokenize (c :: l) = Tok.text c :: tokenize l := by
  rw [tokenize.eq_def]
  dsimp only
  rw [if_neg h]

theorem tokenize_open_tag {n : String} (h : canonicalName n = true)
    (r : List Char) :
    tokenize ('<' :: (n.toList ++ '>' :: r)) = Tok.tag false n :: tokenize r := by
  obtain ⟨hne, hhead, hall⟩ := canonicalName_spec h
  obtain ⟨c1, cs, hn⟩ : ∃ c1 cs, n.toList = c1 :: cs := by
    cases hx : n.toList with
    | nil => exact absurd hx hne
    | cons a b => exact ⟨a, b, rfl⟩
  have hc1 : c1.isAlpha = true := by
    rw [hn] at hhead
    exact hhead
  have hfind : findTagEnd (n.toList ++ '>' :: r) = r :=
    findTagEnd_append r fun c hc => isAlphanum_ne_gt (hall c hc).1
  have hname := tagName_canonical h r
  rw [hn] at hfind hname ⊢
  rw [List.cons_append, tokenize]
  simp only [if_pos rfl, List.cons_append]
  rw [if_pos hc1]
  rw [← List.cons_append, hfind, hname]
  simp [hc1]

theorem tokenize_close_tag {n : String} (h : canonicalName n = true)
    (r : List Char) :
    tokenize ('<' :: '/' :: (n.toList ++ '>' :: r)) =
      Tok.tag true n :: tokenize r := by
  obtain ⟨hne, hhead, hall⟩ := canonicalName_spec h
  have hslash : ('/').isAlpha = false := by decide
  have hheadapp : headIsAlpha (n.toList ++ '>' :: r) = true := by
    cases hx : n.toList with
    | nil => exact absurd hx hne
    | cons a b =>
      rw [hx] at hhead
      rw [List.cons_append]
      exact hhead
  have hfind : findTagEnd (n.toList ++ '>' :: r) = r :=
    findTagEnd_append r fun c hc => isAlphanum_ne_gt (hall c hc).1
  rw [tokenize]
  simp only [if_pos rfl, hslash, Bool.false_eq_true, if_false,
    beq_self_eq_true, Bool.true_and, hheadapp, if_true]
  rw [hfind, tagName_canonical h r]

theorem tokenize_serializeTok {t : Tok} (h : tokCanonical t) (r : List Char) :
    tokenize (serializeTok t ++ r) = expandTok t ++ tokenize r := by
  cases t with
  | text c =>
    by_cases h1 : c = '<'
    · subst h1
      show tokenize ('&' :: 'l' :: 't' :: ';' :: r) = _
      rw [tokenize_text_cons (by decide), tokenize_text_cons (by decide),
        tokenize_text_cons (by decide), tokenize_text_cons (by decide)]
      rfl
    · by_cases h2 : c = '>'
      · subst h2
        show tokenize ('&' :: 'g' :: 't' :: ';' :: r) = _
        rw [tokenize_text_cons (by decide), tokenize_text_cons (by decide),
          tokenize_text_cons (by decide), tokenize_text_cons (by decide)]
        rfl
      · have he := escapeChar_eq_self h1 h2
        show tokenize (escapeChar c ++ r) = (escapeChar c).map Tok.text ++ tokenize r
        rw [he, List.singleton_append, tokenize_text_cons h1]
        rfl
  | tag b n =>
    cases b with
    | false =>
      show tokenize ('<' :: (([] ++ n.toList ++ ['>']) ++ r)) = _
      have : ([] ++ n.toList ++ ['>']) ++ r = n.toList ++ '>' :: r := by simp
      rw [this, tokenize_open_tag h r]
      rfl
    | true =>
      show tokenize ('<' :: ((['/'] ++ n.toList ++ ['>']) ++ r)) = _
      have : (['/'] ++ n.toList ++ ['>']) ++ r = '/' :: (n.toList ++ '>' :: r) := by
        simp
      rw [this, tokenize_close_tag h r]
      rfl

theorem tokenize_serializeToks {ts : List Tok}
    (h : ∀ t ∈ ts, tokCanonical t) :
    tokenize (serializeToks ts) = expandToks ts := by
  induction ts with
  | nil =>
    show tokenize [] = ([] : List Tok)
    rw [tokenize.eq_def]
  | cons t ts ih =>
    show tokenize (serializeTok t ++ serializeToks ts) = _
    rw [tokenize_serializeTok (h t (by simp)) (serializeToks ts)]
    rw [ih fun x hx => h x (by simp [hx])]
    rfl

theorem tokAllowed_of_mem_filterToks {A : List String} {ts : List Tok} :
    ∀ t ∈ filterToks A ts, tokAllowed A t := by
  induction ts with
  | nil => intro t ht; cases ht
  | cons s ss ih =>
    intro t ht
    simp only [filterToks, List.mem_append] at ht
    rcases ht with ht | ht
    · cases s with
      | text c =>
        simp only [keepTok, List.mem_singleton] at ht
        subst ht
        trivial
      | tag b n =>
        simp only [keepTok] at ht
        split at ht
        · simp only [List.mem_singleton] at ht
          subst ht
          assumption
        · cases ht
    · exact ih t ht

theorem tokCanonical_of_allowed {A : List String}
    (hA : ∀ n ∈ A, canonicalName n = true) {t : Tok}
    (h : tokAllowed A t) : tokCanonical t := by
  cases t with
  | text c => trivial
  | tag b n => exact hA n h

theorem filterToks_map_text (A : List String) (l : List Char) :
    filterToks A (l.map Tok.text) = l.map Tok.text := by
  induction l with
  | nil => rfl
  | cons c cs ih => simp [filterToks, keepTok, ih]

theorem filterToks_expandToks {A : List String} {ts : List Tok}
    (h : ∀ t ∈ ts, tokAllowed A t) :
    filterToks A (expandToks ts) = expandToks ts := by
  induction ts with
  | nil => rfl
  | cons t ts ih =>
    show filterToks A (expandTok t ++ expandToks ts) = _
    rw [filterToks_append, ih fun x hx => h x (by simp [hx])]
    cases t with
    | text c =>
      rw [show expandTok (Tok.text c) = (escapeChar c).map Tok.text from rfl,
        filterToks_map_text]
      rfl
    | tag b n =>
      have hn : n ∈ A := h (Tok.tag b n) (by simp)
      show filterToks A [Tok.tag b n] ++ _ = expandTok (Tok.tag b n) ++ _
      simp [filterToks, keepTok, hn, expandTok]

theorem serializeToks_map_text {l : List Char}
    (h : ∀ x ∈ l, x ≠ '<' ∧ x ≠ '>') :
    serializeToks (l.map Tok.text) = l := by
  induction l with
  | nil => rfl
  | cons c cs ih =>
    show escapeChar c ++ serializeToks (cs.map Tok.text) = c :: cs
    rw [escapeChar_eq_self (h c (by simp)).1 (h c (by simp)).2,
      ih fun x hx => h x (by simp [hx]), List.singleton_append]

theorem serializeToks_expandToks (ts : List Tok) :
    serializeToks (expandToks ts) = serializeToks ts := by
  induction ts with
  | nil => rfl
  | cons t ts ih =>
    show serializeToks (expandTok t ++ expandToks ts) = serializeTok t ++ serializeToks ts
    rw [serializeToks_append, ih]
    cases t with
    | text c =>
      rw [show expandTok (Tok.text c) = (escapeChar c).map Tok.text from rfl,
        serializeToks_map_text (escapeChar_ne_angle c)]
      rfl
    | tag b n => simp [expandTok, serializeToks]

/-- One-pass output of `bleach_clean` is a fixpoint: cleaning it again with
the same canonical allow-list changes nothing. -/
theorem bleach_clean_idem {A : List String}
    (hA : ∀ n ∈ A, canonicalName n = true) (s : String) :
    bleach_clean A (bleach_clean A s) = bleach_clean A s := by
  unfold bleach_clean
  have htl : (String.mk (serializeToks (filterToks A (tokenize s.toList)))).toList
      = serializeToks (filterToks A (tokenize s.toList)) := rfl
  rw [htl]
  have hcanon : ∀ t ∈ filterToks A (tokenize s.toList), tokCanonical t :=
    fun t ht => tokCanonical_of_allowed hA (tokAllowed_of_mem_filterToks t ht)
  rw [tokenize_serializeToks hcanon]
  rw [filterToks_expandToks fun t ht => tokAllowed_of_mem_filterToks t ht]
  rw [serializeToks_expandToks]

/-- Every allow-list name in the code is canonical. -/
theorem ALLOWED_TAGS_canonical : ∀ n ∈ ALLOWED_TAGS, canonicalName n = true := by
  decide

/-- With an empty allow-list the cleaned output contains no angle
brackets: every surviving token is text, and text serialization escapes
`<` and `>`. -/
theorem bleach_clean_nil_no_angle (s : String) :
    ∀ x ∈ (bleach_clean [] s).toList, x ≠ '<' ∧ x ≠ '>' := by
  unfold bleach_clean
  have htl : (String.mk (serializeToks (filterToks [] (tokenize s.toList)))).toList
      = serializeToks (filterToks [] (tokenize s.toList)) := rfl
  rw [htl]
  generalize tokenize s.toList = ts
  induction ts with
  | nil => intro x hx; cases hx
  | cons t ts ih =>
    intro x hx
    rw [show filterToks [] (t :: ts) = keepTok [] t ++ filterToks [] ts from rfl,
      serializeToks_append, List.mem_append] at hx
    rcases hx with hx | hx
    · cases t with
      | text c =>
        rw [show keepTok [] (Tok.text c) = [Tok.text c] from rfl] at hx
        rw [show serializeToks [Tok.text c] = escapeChar c ++ [] from rfl,
          List.append_nil] at hx
        exact escapeChar_ne_angle c x hx
      | tag b n =>
        rw [show keepTok [] (Tok.tag b n) = [] from rfl] at hx
        cases hx
    · exact ih x hx

/-! # Claims -/

/-- C1, counterexample: at `total = 0`, `page = 2`, `per_page = 20` the
code returns `has_prev = true`, refuting the claim that both `has_prev`
and `has_next` are `false` regardless of the requested page (`page = 2`
and `per_page = 20` satisfy the claim's `p ≥ 1`, `per_page ≥ 1`). -/
theorem C1_counterexample :
    (calculate_pagination 0 2 20).has_prev = true ∧
    (calculate_pagination 0 2 20).total_pages = 0 := by
  constructor <;> rfl

/-- C1, amended: for every requested page and per_page,
`calculate_pagination(total=0, page, per_page)` returns `total_pages = 0`,
`page_range = []` and `has_next = false`; `has_prev` equals `page > 1`,
hence it is `false` exactly when the requested page is 1. -/
theorem C1_total_zero (page per_page : Nat) :
    (calculate_pagination 0 page per_page).total_pages = 0 ∧
    (calculate_pagination 0 page per_page).page_range = [] ∧
    (calculate_pagination 0 page per_page).has_next = false ∧
    (calculate_pagination 0 page per_page).has_prev = decide (page > 1) := by
  refine ⟨rfl, rfl, ?_, rfl⟩
  simp [calculate_pagination, total_pages_of]

/-- C2: `check_write_permission(board, None)` is `false` for every board
(hence for every value of its `can_write` policy, `all` included); with an
identity present, policy `all` or `member` yields `true`, and policy
`admin` yields `true` iff the identity's admin flag is set (a missing
`is_admin` key counts as unset). -/
theorem C2_check_write_permission :
    (∀ b : Board, check_write_permission b none = false) ∧
    (∀ (b : Board) (u : User),
      b.can_write = some "all" ∨ b.can_write = some "member" →
      check_write_permission b (some u) = true) ∧
    (∀ (b : Board) (u : User), b.can_write = some "admin" →
      (check_write_permission b (some u) = true ↔ u.is_admin.getD false = true)) := by
  refine ⟨fun b => rfl, ?_, ?_⟩
  · rintro b u (h | h) <;> simp [check_write_permission, h]
  · intro b u h
    simp [check_write_permission, h]

/-- C2 witness: the three cases of `C2_check_write_permission` at concrete
boards and identities. -/
theorem C2_witness :
    check_write_permission ⟨none, some "all"⟩ none = false ∧
    check_write_permission ⟨none, some "all"⟩ (some ⟨none⟩) = true ∧
    check_write_permission ⟨none, some "member"⟩ (some ⟨none⟩) = true ∧
    (check_write_permission ⟨none, some "admin"⟩ (some ⟨some true⟩) = true ↔
      (some true).getD false = true) :=
  ⟨C2_check_write_permission.1 _,
   C2_check_write_permission.2.1 _ _ (Or.inl rfl),
   C2_check_write_permission.2.1 _ _ (Or.inr rfl),
   C2_check_write_permission.2.2 _ _ rfl⟩

/-- C3: `check_read_permission` returns `true` unconditionally under
policy `all`; `true` iff an identity is present under `member`; `true`
iff an identity with its admin flag set is present under `admin`; and
`false` for any other policy value (fail-closed default). -/
theorem C3_check_read_permission :
    (∀ (b : Board) (u : Option User), b.can_read = some "all" →
      check_read_permission b u = true) ∧
    (∀ (b : Board) (u : Option User), b.can_read = some "member" →
      (check_read_permission b u = true ↔ u.isSome = true)) ∧
    (∀ (b : Board) (u : Option User), b.can_read = some "admin" →
      (check_read_permission b u = true ↔
        ∃ x, u = some x ∧ x.is_admin.getD false = true)) ∧
    (∀ (b : Board) (u : Option User) (p : String), b.can_read = some p →
      p ≠ "all" → p ≠ "member" → p ≠ "admin" →
      check_read_permission b u = false) := by
  refine ⟨?_, ?_, ?_, ?_⟩
  · intro b u h; simp [check_read_permission, h]
  · intro b u h; simp [check_read_permission, h]
  · intro b u h
    cases u with
    | none => simp [check_read_permission, h]
    | some x => simp [check_read_permission, h]
  · intro b u p h hall hmem hadm
    cases u <;> simp [check_read_permission, h, hall, hmem, hadm]

/-- C3 witness: the four cases of `C3_check_read_permission` at concrete
boards and identities (including the fail-closed case for the unknown
policy value `"owner"`). -/
theorem C3_witness :
    check_read_permission ⟨some "all", none⟩ none = true ∧
    (check_read_permission ⟨some "member", none⟩ none = true ↔
      (none : Option User).isSome = true) ∧
    (check_read_permission ⟨some "admin", none⟩ (some ⟨some true⟩) = true ↔
      ∃ x, (some (⟨some true⟩ : User) : Option User) = some x ∧
        x.is_admin.getD false = true) ∧
    check_read_permission ⟨some "owner", none⟩ none = false :=
  ⟨C3_check_read_permission.1 _ _ rfl,
   C3_check_read_permission.2.1 _ _ rfl,
   C3_check_read_permission.2.2.1 _ _ rfl,
   C3_check_read_permission.2.2.2 _ _ "owner" rfl (by decide) (by decide) (by decide)⟩

/-- C6, counterexample: a cookie/form pair that is present on both sides
and byte-for-byte equal (the empty string) for which the code still
returns `false` — Python truthiness treats an empty token like an absent
one, so the claimed "present and equal ⟹ true" direction fails. -/
theorem C6_counterexample :
    (some "" : Option String) ≠ none ∧
    verify_csrf_token (some "") (some "") = false := by
  constructor
  · intro h; cases h
  · rfl

/-- C6, amended: `verify_csrf_token` returns `true` iff both values are
present, non-empty, and byte-for-byte equal; absence — or emptiness — of
either value yields `false` (a result, never an exception: the function
is total). -/
theorem C6_verify_csrf_token (a b : Option String) :
    verify_csrf_token a b = true ↔
      ∃ s, a = some s ∧ b = some s ∧ s ≠ "" := by
  cases a with
  | none => simp [verify_csrf_token]
  | some c =>
    cases b with
    | none => simp [verify_csrf_token]
    | some f =>
      by_cases hc : c = "" <;> by_cases hf : f = "" <;>
        simp [verify_csrf_token, hc, hf]
      · exact fun h => hc h.symm
      · exact eq_comm

/-- C10: a board record lacking the `can_read` key is read-checked exactly
as if the policy were `all`, and one lacking the `can_write` key is
write-checked exactly as if the policy were `member` — missing policy
fields default open, not closed. -/
theorem C10_missing_policy_defaults :
    (∀ (w : Option String) (u : Option User),
      check_read_permission ⟨none, w⟩ u = check_read_permission ⟨some "all", w⟩ u) ∧
    (∀ (r : Option String) (u : Option User),
      check_write_permission ⟨r, none⟩ u = check_write_permission ⟨r, some "member"⟩ u) := by
  constructor
  · intro w u; rfl
  · intro r u; cases u <;> rfl

/-- C4, counterexample: with a store whose user lookup raises (an
unexpected store failure) and a token that decodes to a valid subject,
`get_current_user` still returns "no identity" rather than letting the
failure propagate — the blanket `except Exception` in the code catches it
and returns `None`, so the claim that unexpected store failures propagate
to the caller as fatal errors fails. -/
theorem C4_counterexample :
    get_current_user
      ⟨fun _ => DecodeOutcome.ok (some "u1"), fun _ => LookupOutcome.exn⟩
      (some "tok") = Except.ok none ∧
    ∀ e, get_current_user
      ⟨fun _ => DecodeOutcome.ok (some "u1"), fun _ => LookupOutcome.exn⟩
      (some "tok") ≠ Except.error e := by
  constructor
  · rfl
  · intro e h; cases h

/-- C4, amended: `get_current_user` returns "no identity" (`none`) — and
never raises to its caller — whenever the token is absent, malformed,
expired, or has an invalid signature, when the decoded payload lacks a
subject, or when no matching user record exists; and unexpected store
failures are likewise caught and normalized to "no identity", so no error
whatsoever propagates to the caller. -/
theorem C4_get_current_user_never_raises (ctx : AuthCtx) (token : Option String) :
    (∀ e, get_current_user ctx token ≠ Except.error e) ∧
    (token = none → get_current_user ctx token = Except.ok none) ∧
    (∀ t, token = some t → ctx.decode t = DecodeOutcome.jwtError →
      get_current_user ctx token = Except.ok none) ∧
    (∀ t, token = some t → ctx.decode t = DecodeOutcome.exn →
      get_current_user ctx token = Except.ok none) ∧
    (∀ t, token = some t → ctx.decode t = DecodeOutcome.ok none →
      get_current_user ctx token = Except.ok none) ∧
    (∀ t uid, token = some t → ctx.decode t = DecodeOutcome.ok (some uid) →
      uid ≠ "" → ctx.lookup uid = LookupOutcome.noRow →
      get_current_user ctx token = Except.ok none) ∧
    (∀ t uid, token = some t → ctx.decode t = DecodeOutcome.ok (some uid) →
      uid ≠ "" → ctx.lookup uid = LookupOutcome.exn →
      get_current_user ctx token = Except.ok none) := by
  refine ⟨?_, ?_, ?_, ?_, ?_, ?_, ?_⟩
  · intro e
    cases token with
    | none => simp [get_current_user]
    | some t =>
      cases hd : ctx.decode t with
      | ok sub =>
        cases sub with
        | none => simp [get_current_user, hd]
        | some uid =>
          by_cases huid : uid = ""
          · simp [get_current_user, hd, huid]
          · cases hl : ctx.lookup uid <;> simp [get_current_user, hd, huid, hl]
      | jwtError => simp [get_current_user, hd]
      | exn => simp [get_current_user, hd]
  · rintro rfl; rfl
  · rintro t rfl hd; simp [get_current_user, hd]
  · rintro t rfl hd; simp [get_current_user, hd]
  · rintro t rfl hd; simp [get_current_user, hd]
  · rintro t uid rfl hd huid hl; simp [get_current_user, hd, huid, hl]
  · rintro t uid rfl hd huid hl; simp [get_current_user, hd, huid, hl]

/-- C4 witness: `C4_get_current_user_never_raises` at concrete contexts —
a decoder that reports an expired/invalid token, and a store whose lookup
finds no row for subject `"u1"`. -/
theorem C4_witness :
    get_current_user ⟨fun _ => DecodeOutcome.jwtError, fun _ => LookupOutcome.noRow⟩
      (some "tok") = Except.ok none ∧
    get_current_user ⟨fun _ => DecodeOutcome.ok (some "u1"), fun _ => LookupOutcome.noRow⟩
      (some "tok") = Except.ok none ∧
    get_current_user ⟨fun _ => DecodeOutcome.jwtError, fun _ => LookupOutcome.noRow⟩
      none = Except.ok none :=
  ⟨(C4_get_current_user_never_raises _ _).2.2.1 "tok" rfl rfl,
   (C4_get_current_user_never_raises _ _).2.2.2.2.2.1 "tok" "u1" rfl rfl (by decide) rfl,
   (C4_get_current_user_never_raises _ _).2.1 rfl⟩

/-- C7: for any store state in which the addressed post exists and is
active and the addressed parent comment exists, is active, and itself has
a non-null parent reference, `create_comment` is rejected with an error
(400, reply-to-reply) and the store is left unchanged — no comment row is
inserted. -/
theorem C7_reply_to_reply_rejected (st : Store) (post_id : String)
    (user : UserRec) (content : String) (pid : String) (p : PostRec)
    (parent : CommentRec)
    (hpid : pid ≠ "")
    (hpost : st.posts.find? (fun q => q.id == post_id && q.is_active) = some p)
    (hparent : st.comments.find? (fun c => c.id == pid && c.is_active) = some parent)
    (hnest : parent.parent_id.isSome = true) :
    create_comment st post_id user content (some pid) =
      (Except.error ErrKind.badRequest, st) := by
  unfold create_comment
  simp [hpost, hparent, hpid, hnest]

/-- C7 witness: a concrete store with one active post, a root comment
`c0`, and a child comment `c1` (whose parent is `c0`); replying to `c1`
is rejected with 400 and the store is unchanged. -/
theorem C7_witness :
    create_comment
      ⟨[⟨"p1", true⟩],
       [⟨"c0", "p1", "u0", none, "root", true⟩,
        ⟨"c1", "p1", "u1", some "c0", "child", true⟩], "c2"⟩
      "p1" ⟨"u2", false⟩ "hi there" (some "c1") =
    (Except.error ErrKind.badRequest,
      ⟨[⟨"p1", true⟩],
       [⟨"c0", "p1", "u0", none, "root", true⟩,
        ⟨"c1", "p1", "u1", some "c0", "child", true⟩], "c2"⟩) :=
  C7_reply_to_reply_rejected _ _ _ _ _ ⟨"p1", true⟩
    ⟨"c1", "p1", "u1", some "c0", "child", true⟩
    (by decide) rfl rfl rfl

/-- Window arithmetic of `calculate_pagination`: for any requested
`page ≥ 1` and `tp ≥ 1` total pages, the final window has exactly
`min 5 tp` entries, lies within `[1, tp]`, and contains the requested
page whenever it is in range (near either boundary the window slides
rather than shrinks). -/
theorem window_spec (page tp : Nat) (hp : 1 ≤ page) (htp : 1 ≤ tp) :
    window_end page tp + 1 - window_start page tp = min 5 tp ∧
    1 ≤ window_start page tp ∧
    window_start page tp + min 5 tp ≤ tp + 1 ∧
    (page ≤ tp →
      window_start page tp ≤ page ∧ page < window_start page tp + min 5 tp) := by
  simp only [window_start, window_end]
  split <;> omega

/-- The full pagination contract of the specification at one input:
`total_pages` is the ceiling division (zero when `total` is zero),
`has_prev = page > 1`, `has_next = page < total_pages`, and `page_range`
is a contiguous ascending window (`List.range'`) of exactly
`min 5 total_pages` page numbers within `[1, total_pages]` — empty when
`total_pages` is zero — containing the requested page whenever it is at
most `total_pages`. -/
def PaginationContract (total page per_page : Nat) : Prop :=
  let P := calculate_pagination total page per_page
  P.total_pages = total ⌈/⌉ per_page ∧
  (total = 0 → P.total_pages = 0) ∧
  P.has_prev = decide (page > 1) ∧
  P.has_next = decide (page < P.total_pages) ∧
  (P.total_pages = 0 → P.page_range = []) ∧
  (0 < P.total_pages →
    P.page_range =
      List.range' (window_start page P.total_pages) (min 5 P.total_pages) ∧
    P.page_range.length = min 5 P.total_pages ∧
    1 ≤ window_start page P.total_pages ∧
    window_start page P.total_pages + min 5 P.total_pages ≤ P.total_pages + 1 ∧
    (page ≤ P.total_pages → page ∈ P.page_range))

/-- C5: for every `total ≥ 0`, `page ≥ 1`, `per_page ≥ 1`,
`calculate_pagination` satisfies the pagination contract — in particular a
requested page beyond `total_pages` still yields a window clamped to
valid bounds (the function is total and the bounds conjuncts do not
assume `page ≤ total_pages`). -/
theorem C5_calculate_pagination (total page per_page : Nat)
    (hp : 1 ≤ page) (hpp : 1 ≤ per_page) :
    PaginationContract total page per_page := by
  have hceil : total_pages_of total per_page = total ⌈/⌉ per_page := by
    rw [Nat.ceilDiv_eq_add_pred_div]
    unfold total_pages_of
    split
    · rfl
    · have ht : total = 0 := by omega
      subst ht
      rw [Nat.div_eq_of_lt (by omega)]
  unfold PaginationContract
  simp only [calculate_pagination]
  refine ⟨hceil, ?_, by trivial, by trivial, ?_, ?_⟩
  · rintro rfl; rfl
  · intro h; simp [h]
  · intro h0
    obtain ⟨hlen, hs1, hs2, hmem⟩ := window_spec page (total_pages_of total per_page) hp h0
    refine ⟨?_, ?_, hs1, hs2, ?_⟩
    · rw [if_pos h0, hlen]
    · rw [if_pos h0, hlen, List.length_range']
    · intro hple
      rw [if_pos h0, hlen]
      exact List.mem_range'_1.mpr ⟨(hmem hple).1, (hmem hple).2⟩

/-- C5 witness: the contract at the spec's own example
`calculate_pagination(total=200, page=5, per_page=20)` (whose window is
`[3, 4, 5, 6, 7]`, five entries including page 5). -/
theorem C5_witness : PaginationContract 200 5 20 :=
  C5_calculate_pagination 200 5 20 (by decide) (by decide)

/-- C8: both sanitizer policies are idempotent — re-applying
`sanitize_html` or `sanitize_text` to already-sanitized output yields the
same output, for every input (including the `None` and empty-string
pass-through cases). -/
theorem C8_sanitize_idempotent (s : Option String) :
    sanitize_html (sanitize_html s) = sanitize_html s ∧
    sanitize_text (sanitize_text s) = sanitize_text s := by
  constructor
  · cases s with
    | none => rfl
    | some str =>
      by_cases h : str = ""
      · subst h; rfl
      · simp only [sanitize_html, if_neg h]
        by_cases h2 : bleach_clean ALLOWED_TAGS str = ""
        · rw [if_pos h2]
        · rw [if_neg h2, bleach_clean_idem ALLOWED_TAGS_canonical]
  · cases s with
    | none => rfl
    | some str =>
      by_cases h : str = ""
      · subst h; rfl
      · simp only [sanitize_text, if_neg h]
        by_cases h2 : bleach_clean [] str = ""
        · rw [if_pos h2]
        · rw [if_neg h2, bleach_clean_idem (fun n hn => absurd hn (List.not_mem_nil n))]

/-- C9: the plain-text policy strips all markup — for every input string,
the output of `sanitize_text` contains no `<` and no `>` character. -/
theorem C9_sanitize_text_no_angle (s : String) :
    (((sanitize_text (some s)).getD "").toList.all
      fun c => !(c == '<') && !(c == '>')) = true := by
  by_cases h : s = ""
  · subst h; rfl
  · simp only [sanitize_text, if_neg h, Option.getD_some]
    rw [List.all_eq_true]
    intro c hc
    obtain ⟨h1, h2⟩ := bleach_clean_nil_no_angle s c hc
    simp [h1, h2]

end WebTest
